import Mathlib

/-
  Shallow embedding of the vendor binary frame codec of
  src/investigation/RithmicProtocolDecoder.py:

  * `decode_packet`  embeds `RithmicProtocolDecoder.decode_packet` (lines 10-89).
  * `build_message`  embeds `RithmicBinaryProtocol.build_message` (lines 113-164).
  * `poll_step`      embeds the body of the polling loop of `stream_prices`
                     in src/market_data_quote_streaming.py (lines 17-47).

  Modelling conventions:
  * a byte string is a `List Nat` of byte values;
  * a Python `str` is a `List Nat` of Unicode code points (`"ping"` is
    `[112, 105, 110, 103]`);
  * `struct.unpack` on a slice of the wrong size, i.e. Python's
    `struct.error`, is `DecErr.structError`; an unhandled
    `UnicodeDecodeError` from `bytes.decode("ascii")` is
    `DecErr.unicodeError`; fallible functions return `Except` / `Option`;
  * Python slices `data[i:j]` clamp at the end of the buffer, so they are
    `(data.drop i).take (j - i)`;
  * the while-loop of `decode_packet` advances `offset` by at least 4 in
    every iteration, so it is modelled by structural recursion on a fuel
    argument, with `data.length` as fuel (amply sufficient) at the top call;
    the parser state is the not-yet-consumed suffix of the buffer.
-/

/-- A decoded field value as the Python code produces it: either a `str`
(list of Unicode code points) or an `int`.  `decode_packet` stores exactly
these two shapes in its `fields` list (a hex dump `field_data.hex()` is a
`str`). -/
inductive PyVal
  | s (cs : List Nat)
  | i (n : Nat)
  deriving DecidableEq, Repr

/-- The two exceptions the decoder can raise: `struct.error` from an
`unpack` on a slice of the wrong length, and `UnicodeDecodeError` from an
unguarded `decode("ascii")`. -/
inductive DecErr
  | structError
  | unicodeError
  deriving DecidableEq, Repr

/-- Big-endian value of a byte string (`struct.unpack` of `>I`/`>H` reads
its exact-length input this way). -/
def toBE (l : List Nat) : Nat := l.foldl (fun a b => a * 256 + b) 0

/-- `struct.unpack(">I", s)[0]`: requires exactly 4 bytes, else `struct.error`. -/
def unpack32 (l : List Nat) : Option Nat := if l.length = 4 then some (toBE l) else none

/-- `struct.unpack(">H", s)[0]`: requires exactly 2 bytes, else `struct.error`. -/
def unpack16 (l : List Nat) : Option Nat := if l.length = 2 then some (toBE l) else none

/-- Code point of the lowercase hex digit of a value below 16. -/
def hexDigitCode (n : Nat) : Nat := if n < 10 then 48 + n else 87 + n

/-- `bytes.hex()`: two lowercase hex digits per byte, as code points. -/
def hexOfBytes : List Nat → List Nat
  | [] => []
  | x :: r => hexDigitCode (x / 16) :: hexDigitCode (x % 16) :: hexOfBytes r

/-- `bytes.decode("ascii")`: succeeds iff every byte is below 128, and then
yields exactly those code points. -/
def asciiDecode (b : List Nat) : Option (List Nat) :=
  if b.all (fun x => x < 128) then some b else none

/-- Lines 49-61 of the decoder: try ASCII first; on failure return the
4-byte big-endian integer when the payload is exactly 4 bytes, otherwise
the hex dump of the payload. -/
def numVal (fdata : List Nat) : PyVal :=
  match asciiDecode fdata with
  | some s => PyVal.s s
  | none => if fdata.length = 4 then PyVal.i (toBE fdata) else PyVal.s (hexOfBytes fdata)

/-- The field-parsing while-loop of `decode_packet` (lines 27-89).  `rem` is
the suffix of the buffer from the current `offset` on; each constructor of
the Python `if/elif` chain appears in source order.  Fuel only bounds the
iteration count; every iteration consumes at least 4 bytes, so any fuel
of at least `rem.length` is enough (the top-level call passes the whole
buffer length). -/
def parseFields : Nat → List Nat → Except DecErr (List (Nat × PyVal))
  | 0, _ => .ok []
  | fuel + 1, rem =>
    -- `while offset < len(data)` together with `if offset + 4 > len(data): break`
    if rem.length < 4 then .ok []
    else
      -- field_header = unpack(">I", data[offset:offset+4]); ft = upper, fl = lower 16 bits
      if toBE (rem.take 4) / 65536 = 0x7FFE ∨ toBE (rem.take 4) / 65536 = 0x7FF0 then
        if toBE (rem.take 4) % 65536 = 0 then
          -- length in next 4 bytes (unguarded unpack: struct.error if short)
          match unpack32 ((rem.drop 4).take 4) with
          | none => .error .structError
          | some alen =>
            (parseFields fuel (((rem.drop 4).drop 4).drop alen)).map
              (fun rest =>
                (toBE (rem.take 4) / 65536, numVal (((rem.drop 4).drop 4).take alen)) :: rest)
        else
          (parseFields fuel ((rem.drop 4).drop (toBE (rem.take 4) % 65536))).map
            (fun rest =>
              (toBE (rem.take 4) / 65536,
                numVal ((rem.drop 4).take (toBE (rem.take 4) % 65536))) :: rest)
      else if toBE (rem.take 4) / 65536 = 0x7FFF then
        -- string field: unguarded 4-byte length, then unguarded ascii decode
        match unpack32 ((rem.drop 4).take 4) with
        | none => .error .structError
        | some slen =>
          match asciiDecode (((rem.drop 4).drop 4).take slen) with
          | none => .error .unicodeError
          | some s =>
            (parseFields fuel (((rem.drop 4).drop 4).drop slen)).map
              (fun rest => (toBE (rem.take 4) / 65536, PyVal.s s) :: rest)
      else if toBE (rem.take 4) / 65536 = 0 ∧ toBE (rem.take 4) % 65536 = 0 then
        -- bare-string encoding, both reads guarded by explicit bounds checks
        if 4 ≤ (rem.drop 4).length then
          if toBE ((rem.drop 4).take 4) ≤ ((rem.drop 4).drop 4).length then
            match asciiDecode (((rem.drop 4).drop 4).take (toBE ((rem.drop 4).take 4))) with
            | none => .error .unicodeError
            | some s =>
              (parseFields fuel (((rem.drop 4).drop 4).drop (toBE ((rem.drop 4).take 4)))).map
                (fun rest => ((0 : Nat), PyVal.s s) :: rest)
          else parseFields fuel ((rem.drop 4).drop 4)
        else parseFields fuel (rem.drop 4)
      else
        -- unknown field type: only consumed when nonempty and fully present
        if 0 < toBE (rem.take 4) % 65536 ∧ toBE (rem.take 4) % 65536 ≤ (rem.drop 4).length then
          (parseFields fuel ((rem.drop 4).drop (toBE (rem.take 4) % 65536))).map
            (fun rest =>
              (toBE (rem.take 4) / 65536,
                PyVal.s (hexOfBytes ((rem.drop 4).take (toBE (rem.take 4) % 65536)))) :: rest)
        else parseFields fuel (rem.drop 4)

/-- `RithmicProtocolDecoder.decode_packet` (lines 10-89) on a byte buffer.
The Python function returns only `fields` and prints the message type; the
model returns the pair (message type, fields) so that claims about the
yielded message type are statable.  The two header reads are the unguarded
`unpack` calls of lines 17 and 22. -/
def decode_packet (data : List Nat) : Except DecErr (Nat × List (Nat × PyVal)) :=
  match unpack32 (data.take 4) with
  | none => .error .structError
  | some _msgLen =>
    match unpack16 ((data.drop 4).take 2) with
    | none => .error .structError
    | some msgType => (parseFields data.length (data.drop 6)).map (fun fs => (msgType, fs))

/-- The four bytes of `struct.pack(">I", n)`. -/
def pack32core (n : Nat) : List Nat :=
  [n / 16777216 % 256, n / 65536 % 256, n / 256 % 256, n % 256]

/-- `struct.pack(">I", n)`: `struct.error` (modelled as `none`) unless `n < 2^32`. -/
def pack32 (n : Nat) : Option (List Nat) :=
  if n < 4294967296 then some (pack32core n) else none

/-- The two bytes of `struct.pack(">H", n)`. -/
def pack16core (n : Nat) : List Nat := [n / 256 % 256, n % 256]

/-- `struct.pack(">H", n)`: `struct.error` unless `n < 2^16`. -/
def pack16 (n : Nat) : Option (List Nat) :=
  if n < 65536 then some (pack16core n) else none

/-- `str.encode("ascii")`: succeeds iff every code point is below 128. -/
def encodeAscii (s : List Nat) : Option (List Nat) :=
  if s.all (fun c => c < 128) then some s else none

/-- A value passed to `build_message` inside a `(field_type, value)` tuple:
the Python code branches on `isinstance(value, str/int/bytes)`. -/
inductive EncValue
  | str (s : List Nat)
  | int (n : Nat)
  | bytes (b : List Nat)
  deriving DecidableEq, Repr

/-- One entry of the `fields` list of `build_message`: a `(tag, value)`
tuple, or a bare string (`else` branch of line 157). -/
inductive EncField
  | tagged (tag : Nat) (v : EncValue)
  | bare (s : List Nat)
  deriving DecidableEq, Repr

/-- The bytes `build_message` appends for one field (lines 119-160).
`none` models a raised exception: a `struct.pack` argument out of range, a
non-ASCII string, or a value shape on which the Python code would crash
(`len(int)` / `int.encode` / `bytes.encode`). -/
def encodeField : EncField → Option (List Nat)
  | .tagged t v =>
    if t = 0x7FFF then
      match v with
      | .str s =>
        match pack32 (t * 65536), pack32 s.length, encodeAscii s with
        | some h, some l, some e => some (h ++ l ++ e)
        | _, _, _ => none
      | _ => none
    else if t = 0x7FF0 ∨ t = 0x7FFE then
      match v with
      | .str s =>
        match pack32 (t * 65536), pack32 s.length, encodeAscii s with
        | some h, some l, some e => some (h ++ l ++ e)
        | _, _, _ => none
      | .int n =>
        match pack32 (t * 65536), pack32 4, pack32 n with
        | some h, some l, some e => some (h ++ l ++ e)
        | _, _, _ => none
      | .bytes b =>
        match pack32 (t * 65536), pack32 b.length with
        | some h, some l => some (h ++ l ++ b)
        | _, _ => none
    else if t = 0x2710 then
      -- note: packs the bare tag as 4 bytes, NOT shifted into the upper 16 bits
      match v with
      | .str s =>
        match pack32 t, pack32 s.length, encodeAscii s with
        | some h, some l, some e => some (h ++ l ++ e)
        | _, _, _ => none
      | _ => none
    else
      match v with
      | .str s =>
        match pack16 t, encodeAscii s with
        | some h, some e =>
          match pack16 e.length with
          | some l => some (h ++ l ++ e)
          | none => none
        | _, _ => none
      | .bytes b =>
        match pack16 t, pack16 b.length with
        | some h, some l => some (h ++ l ++ b)
        | _, _ => none
      | .int _ =>
        -- neither isinstance test matches: only the 2-byte tag is emitted
        pack16 t
  | .bare s =>
    match pack32 s.length, encodeAscii s with
    | some l, some e => some (l ++ e)
    | _, _ => none

/-- Concatenation of the encodings of a field list, in order. -/
def encodeFields : List EncField → Option (List Nat)
  | [] => some []
  | f :: fs =>
    match encodeField f, encodeFields fs with
    | some b, some r => some (b ++ r)
    | _, _ => none

/-- `RithmicBinaryProtocol.build_message` (lines 113-164): 2-byte message
type, the encoded fields, then the 4-byte length of everything after the
length prefix, prepended. -/
def build_message (msgType : Nat) (fields : List EncField) : Option (List Nat) :=
  match pack16 msgType, encodeFields fields with
  | some mt, some fb =>
    match pack32 (mt ++ fb).length with
    | some lp => some (lp ++ (mt ++ fb))
    | none => none
  | _, _ => none

/-- The payload bytes `build_message` writes for a value (used to state the
round-trip theorem). -/
def payloadBytes : EncValue → List Nat
  | .str s => s
  | .int n => pack32core n
  | .bytes b => b

/-- What `decode_packet` recovers for one encoded field, on the fields for
which encoding then decoding stays in sync (see `goodField`). -/
def decodedField : EncField → Nat × PyVal
  | .tagged t v =>
    if t = 0x7FFF then
      (t, match v with
          | .str s => PyVal.s s
          | .int _ => PyVal.s []
          | .bytes _ => PyVal.s [])
    else if t = 0x7FF0 ∨ t = 0x7FFE then (t, numVal (payloadBytes v))
    else (t, PyVal.s (hexOfBytes (payloadBytes v)))
  | .bare s => ((0 : Nat), PyVal.s s)

/-- The encoder-supported fields whose encoding the decoder parses back in
sync: 0x7FFF string fields, 0x7FF0/0x7FFE fields of any value shape, and
generic tagged fields with a nonempty string/bytes payload.  0x2710 fields,
bare strings, empty generic payloads and generic int values fall out of
sync (see the round-trip counterexample). -/
def goodField : EncField → Bool
  | .tagged t v =>
    if t = 0x7FFF then
      (match v with
       | .str _ => true
       | _ => false)
    else if t = 0x7FF0 ∨ t = 0x7FFE then true
    else if t = 0x2710 then false
    else
      (match v with
       | .str s => !s.isEmpty
       | .bytes b => !b.isEmpty
       | .int _ => false)
  | .bare _ => false

/-- State of the `stream_prices` polling loop of
src/market_data_quote_streaming.py: the last-seen bid/ask cell values
(`None` before the first update) and the update counter. -/
structure StreamState (V : Type) where
  last_bid : Option V
  last_ask : Option V
  update_count : Nat
  deriving Repr

/-- One iteration of the `stream_prices` loop (lines 22-44): after reading
`bid` and `ask`, `if bid != last_bid or ask != last_ask:` increment the
counter and store the new pair, else leave the state unchanged. -/
def poll_step {V : Type} [DecidableEq V] (st : StreamState V) (bid ask : Option V) :
    StreamState V :=
  if bid ≠ st.last_bid ∨ ask ≠ st.last_ask then
    { last_bid := bid, last_ask := ask, update_count := st.update_count + 1 }
  else st

/-- The whole polling loop over a finite list of reads, starting from the
initial `None/None/0` state. -/
def stream_prices_run {V : Type} [DecidableEq V] (reads : List (Option V × Option V)) :
    StreamState V :=
  reads.foldl (fun st p => poll_step st p.1 p.2) ⟨none, none, 0⟩

/-- Frame 792 ping capture, `0000001042420000000100000000000470696e67`. -/
def pingCapture : List Nat :=
  [0, 0, 0, 16, 66, 66, 0, 0, 0, 1, 0, 0, 0, 0, 0, 4, 112, 105, 110, 103]

/-- Frame 833 login capture,
`0000004b4242000000042710000000176c6f67696e5f6167656e745f7265706f7369746f7279637ff00000000a313735363335373538377ff0000000063134333030300000000000066d72765f6c62`. -/
def loginCapture : List Nat :=
  [0, 0, 0, 75, 66, 66, 0, 0, 0, 4, 39, 16, 0, 0, 0, 23,
   108, 111, 103, 105, 110, 95, 97, 103, 101, 110, 116, 95, 114, 101, 112, 111,
   115, 105, 116, 111, 114, 121, 99, 127, 240, 0, 0, 0, 10,
   49, 55, 53, 54, 51, 53, 55, 53, 56, 55, 127, 240, 0, 0, 0, 6,
   49, 52, 51, 48, 48, 48, 0, 0, 0, 0, 0, 6, 109, 114, 118, 95, 108, 98]

/-- A frame whose single 0x7FFE field header claims 5 payload bytes while
only 2 remain in the buffer. -/
def truncatedFieldBuf : List Nat :=
  [0, 0, 0, 8, 66, 66, 127, 254, 0, 5, 97, 98]

/-- A frame with a 0x7FFF string field whose 1-byte payload is the
non-ASCII byte 0xFF. -/
def badStringBuf : List Nat :=
  [0, 0, 0, 9, 66, 66, 127, 255, 0, 0, 0, 0, 0, 1, 255]

/-- The same frame with tag 0x7FFE instead: the numeric branch has a
fallback instead of an unhandled decode error. -/
def badNumericBuf : List Nat :=
  [0, 0, 0, 9, 66, 66, 127, 254, 0, 0, 0, 0, 0, 1, 255]

/-! ### Helper lemmas -/

theorem toBE_pack32core (n : Nat) (h : n < 4294967296) : toBE (pack32core n) = n := by
  simp only [toBE, pack32core, List.foldl]
  omega

theorem toBE_pack16core (n : Nat) (h : n < 65536) : toBE (pack16core n) = n := by
  simp only [toBE, pack16core, List.foldl]
  omega

theorem pack32_inv {n : Nat} {l : List Nat} (h : pack32 n = some l) :
    n < 4294967296 ∧ l = pack32core n := by
  unfold pack32 at h
  split at h
  · exact ⟨by assumption, (Option.some.inj h).symm⟩
  · exact absurd h (by simp)

theorem pack16_inv {n : Nat} {l : List Nat} (h : pack16 n = some l) :
    n < 65536 ∧ l = pack16core n := by
  unfold pack16 at h
  split at h
  · exact ⟨by assumption, (Option.some.inj h).symm⟩
  · exact absurd h (by simp)

theorem encodeAscii_inv {s l : List Nat} (h : encodeAscii s = some l) :
    s.all (fun c => c < 128) = true ∧ l = s := by
  unfold encodeAscii at h
  split at h
  · exact ⟨by assumption, (Option.some.inj h).symm⟩
  · exact absurd h (by simp)

theorem parseFields_nil (fuel : Nat) : parseFields fuel [] = .ok [] := by
  cases fuel <;> rfl

theorem decode_short {data : List Nat} (h : data.length < 6) :
    decode_packet data = .error .structError := by
  unfold decode_packet
  by_cases h4 : data.length < 4
  · have e1 : unpack32 (data.take 4) = none := by
      unfold unpack32
      rw [if_neg]
      simp only [List.length_take]
      omega
    rw [e1]
  · have e1 : unpack32 (data.take 4) = some (toBE (data.take 4)) := by
      unfold unpack32
      rw [if_pos]
      simp only [List.length_take]
      omega
    have e2 : unpack16 ((data.drop 4).take 2) = none := by
      unfold unpack16
      rw [if_neg]
      simp only [List.length_take, List.length_drop]
      omega
    rw [e1, e2]

/-! Branch lemmas for one iteration of the field-parsing loop. -/

theorem pf_numeric_ext (fuel : Nat) (rem : List Nat) (alen : Nat)
    (h4 : ¬ rem.length < 4)
    (hft : toBE (rem.take 4) / 65536 = 0x7FFE ∨ toBE (rem.take 4) / 65536 = 0x7FF0)
    (hfl : toBE (rem.take 4) % 65536 = 0)
    (hu : unpack32 ((rem.drop 4).take 4) = some alen) :
    parseFields (fuel + 1) rem =
      (parseFields fuel (((rem.drop 4).drop 4).drop alen)).map
        (fun rest =>
          (toBE (rem.take 4) / 65536, numVal (((rem.drop 4).drop 4).take alen)) :: rest) := by
  conv_lhs => unfold parseFields
  rw [if_neg h4, if_pos hft, if_pos hfl, hu]

theorem pf_numeric_ext_err (fuel : Nat) (rem : List Nat)
    (h4 : ¬ rem.length < 4)
    (hft : toBE (rem.take 4) / 65536 = 0x7FFE ∨ toBE (rem.take 4) / 65536 = 0x7FF0)
    (hfl : toBE (rem.take 4) % 65536 = 0)
    (hu : unpack32 ((rem.drop 4).take 4) = none) :
    parseFields (fuel + 1) rem = .error .structError := by
  conv_lhs => unfold parseFields
  rw [if_neg h4, if_pos hft, if_pos hfl, hu]

theorem pf_numeric_compact (fuel : Nat) (rem : List Nat)
    (h4 : ¬ rem.length < 4)
    (hft : toBE (rem.take 4) / 65536 = 0x7FFE ∨ toBE (rem.take 4) / 65536 = 0x7FF0)
    (hfl : ¬ toBE (rem.take 4) % 65536 = 0) :
    parseFields (fuel + 1) rem =
      (parseFields fuel ((rem.drop 4).drop (toBE (rem.take 4) % 65536))).map
        (fun rest =>
          (toBE (rem.take 4) / 65536,
            numVal ((rem.drop 4).take (toBE (rem.take 4) % 65536))) :: rest) := by
  conv_lhs => unfold parseFields
  rw [if_neg h4, if_pos hft, if_neg hfl]

theorem pf_string (fuel : Nat) (rem : List Nat) (slen : Nat) (s : List Nat)
    (h4 : ¬ rem.length < 4)
    (hft : toBE (rem.take 4) / 65536 = 0x7FFF)
    (hu : unpack32 ((rem.drop 4).take 4) = some slen)
    (ha : asciiDecode (((rem.drop 4).drop 4).take slen) = some s) :
    parseFields (fuel + 1) rem =
      (parseFields fuel (((rem.drop 4).drop 4).drop slen)).map
        (fun rest => (toBE (rem.take 4) / 65536, PyVal.s s) :: rest) := by
  conv_lhs => unfold parseFields
  rw [if_neg h4, if_neg (by rw [hft]; decide), if_pos hft, hu]
  simp only [ha]

theorem pf_generic_hit (fuel : Nat) (rem : List Nat)
    (h4 : ¬ rem.length < 4)
    (hn1 : ¬ (toBE (rem.take 4) / 65536 = 0x7FFE ∨ toBE (rem.take 4) / 65536 = 0x7FF0))
    (hn2 : ¬ toBE (rem.take 4) / 65536 = 0x7FFF)
    (hn3 : ¬ (toBE (rem.take 4) / 65536 = 0 ∧ toBE (rem.take 4) % 65536 = 0))
    (hc : 0 < toBE (rem.take 4) % 65536 ∧ toBE (rem.take 4) % 65536 ≤ (rem.drop 4).length) :
    parseFields (fuel + 1) rem =
      (parseFields fuel ((rem.drop 4).drop (toBE (rem.take 4) % 65536))).map
        (fun rest =>
          (toBE (rem.take 4) / 65536,
            PyVal.s (hexOfBytes ((rem.drop 4).take (toBE (rem.take 4) % 65536)))) :: rest) := by
  conv_lhs => unfold parseFields
  rw [if_neg h4, if_neg hn1, if_neg hn2, if_neg hn3, if_pos hc]

theorem pf_generic_skip (fuel : Nat) (rem : List Nat)
    (h4 : ¬ rem.length < 4)
    (hn1 : ¬ (toBE (rem.take 4) / 65536 = 0x7FFE ∨ toBE (rem.take 4) / 65536 = 0x7FF0))
    (hn2 : ¬ toBE (rem.take 4) / 65536 = 0x7FFF)
    (hn3 : ¬ (toBE (rem.take 4) / 65536 = 0 ∧ toBE (rem.take 4) % 65536 = 0))
    (hc : ¬ (0 < toBE (rem.take 4) % 65536 ∧ toBE (rem.take 4) % 65536 ≤ (rem.drop 4).length)) :
    parseFields (fuel + 1) rem = parseFields fuel (rem.drop 4) := by
  conv_lhs => unfold parseFields
  rw [if_neg h4, if_neg hn1, if_neg hn2, if_neg hn3, if_neg hc]

theorem decode_headers_ok {data : List Nat} (h : ¬ data.length < 4) :
    decode_packet data =
      match unpack16 ((data.drop 4).take 2) with
      | none => .error .structError
      | some msgType => (parseFields data.length (data.drop 6)).map (fun fs => (msgType, fs)) := by
  unfold decode_packet
  have e1 : unpack32 (data.take 4) = some (toBE (data.take 4)) := by
    unfold unpack32
    rw [if_pos]
    simp only [List.length_take]
    omega
  rw [e1]

/-! ### Claim theorems -/

/-- Claim C3 (corrected, counterexample): on the captured ping sample the
decoder does NOT recover the ASCII string "ping": it yields exactly one
field, `(0x0000, "00")` (the hex dump of the single byte consumed by the
first field header), and `"00"` is not `"ping"`. -/
theorem ping_capture_counterexample :
    decode_packet pingCapture = .ok (0x4242, [(0, PyVal.s [48, 48])]) ∧
      PyVal.s [48, 48] ≠ PyVal.s [112, 105, 110, 103] :=
  ⟨rfl, by decide⟩

/-- Claim C3 (amended): `decode_packet` on the ping capture
`0000001042420000000100000000000470696e67` yields message type 0x4242 and
the single field `(0x0000, "00")`; the trailing "ping" bytes are skipped
because the bare-string branch reads the misaligned length 0x0470696E. -/
theorem ping_capture_decode :
    decode_packet pingCapture = .ok (0x4242, [(0, PyVal.s [48, 48])]) := rfl

/-- Claim C4 (corrected, counterexample): on the captured login sample the
decoder yields only the field `(0x0000, "27100000")` — the 0x2710 bytes end
up inside the hex dump of a tag-0 field — so no field of the result carries
tag 0x2710. -/
theorem login_capture_counterexample :
    decode_packet loginCapture =
        .ok (0x4242, [(0, PyVal.s [50, 55, 49, 48, 48, 48, 48, 48])]) ∧
      ([((0 : Nat), PyVal.s [50, 55, 49, 48, 48, 48, 48, 48])].all
          (fun p => p.1 != 0x2710)) = true :=
  ⟨rfl, by decide⟩

/-- Claim C4 (amended): `decode_packet` on the login capture yields message
type 0x4242 and the single field `(0x0000, "27100000")`; the decoder's
2+2-byte header split is misaligned with the capture's actual layout, so
the `login_agent_repository` payload is skipped over in 4-byte header
strides and never decoded. -/
theorem login_capture_decode :
    decode_packet loginCapture =
      .ok (0x4242, [(0, PyVal.s [50, 55, 49, 48, 48, 48, 48, 48])]) := rfl

/-- Claim C8 (confirmed): every buffer shorter than 6 bytes makes one of
the two unguarded header `unpack` calls raise `struct.error` — the decoder
never returns a field sequence on such inputs. -/
theorem decode_short_buffer_raises (data : List Nat) (h : data.length < 6) :
    decode_packet data = .error .structError :=
  decode_short h

theorem decode_short_buffer_raises_witness :
    decode_packet [0, 0, 0, 0, 66] = .error .structError :=
  decode_short_buffer_raises [0, 0, 0, 0, 66] (by decide)

/-- Claim C9 (confirmed): a 0x7FFF string field whose payload contains the
non-ASCII byte 0xFF makes `decode_packet` raise an unhandled
`UnicodeDecodeError`, while the same payload under tag 0x7FFE is caught
and falls back to the hex dump `"ff"`. -/
theorem string_field_unicode_error :
    decode_packet badStringBuf = .error .unicodeError ∧
      decode_packet badNumericBuf = .ok (0x4242, [(0x7FFE, PyVal.s [102, 102])]) :=
  ⟨rfl, rfl⟩

/-- Claim C10 (confirmed): the decoded 4-byte length prefix is never used
to bound field parsing — two buffers of the same length that agree from
byte 4 on decode identically, whatever their first 4 bytes are. -/
theorem length_prefix_ignored (d1 d2 : List Nat)
    (hlen : d1.length = d2.length) (htail : d1.drop 4 = d2.drop 4) :
    decode_packet d1 = decode_packet d2 := by
  have h6 : d1.drop 6 = d2.drop 6 := by
    have a1 := congrArg (List.drop 2) htail
    simpa [List.drop_drop] using a1
  unfold decode_packet
  by_cases h4 : d1.length < 4
  · have e1 : unpack32 (d1.take 4) = none := by
      unfold unpack32
      rw [if_neg]
      simp only [List.length_take]
      omega
    have e2 : unpack32 (d2.take 4) = none := by
      unfold unpack32
      rw [if_neg]
      simp only [List.length_take]
      omega
    rw [e1, e2]
  · have e1 : unpack32 (d1.take 4) = some (toBE (d1.take 4)) := by
      unfold unpack32
      rw [if_pos]
      simp only [List.length_take]
      omega
    have e2 : unpack32 (d2.take 4) = some (toBE (d2.take 4)) := by
      unfold unpack32
      rw [if_pos]
      simp only [List.length_take]
      omega
    rw [e1, e2, htail, hlen, h6]

theorem length_prefix_ignored_witness :
    decode_packet [9, 9, 9, 9, 66, 66] = decode_packet [0, 0, 0, 0, 66, 66] :=
  length_prefix_ignored [9, 9, 9, 9, 66, 66] [0, 0, 0, 0, 66, 66] rfl rfl

/-- Claim C7 (confirmed): one iteration of the `stream_prices` polling loop
increments the update counter and replaces the stored last-seen pair
exactly when the newly read pair differs from it in at least one
component, and leaves the state unchanged when both components are equal. -/
theorem poll_step_update_detection {V : Type} [DecidableEq V]
    (st : StreamState V) (bid ask : Option V) :
    ((bid ≠ st.last_bid ∨ ask ≠ st.last_ask) →
        poll_step st bid ask =
          { last_bid := bid, last_ask := ask, update_count := st.update_count + 1 }) ∧
      ((bid = st.last_bid ∧ ask = st.last_ask) → poll_step st bid ask = st) := by
  constructor
  · intro h
    unfold poll_step
    rw [if_pos h]
  · intro h
    unfold poll_step
    rw [if_neg (by push_neg; exact ⟨h.1, h.2⟩)]

theorem poll_step_update_detection_witness :
    poll_step (⟨some 1, some 2, 0⟩ : StreamState Nat) (some 3) (some 2) =
        ⟨some 3, some 2, 1⟩ ∧
      poll_step (⟨some 1, some 2, 5⟩ : StreamState Nat) (some 1) (some 2) =
        ⟨some 1, some 2, 5⟩ :=
  ⟨(poll_step_update_detection ⟨some 1, some 2, 0⟩ (some 3) (some 2)).1
      (Or.inl (by decide)),
    (poll_step_update_detection ⟨some 1, some 2, 5⟩ (some 1) (some 2)).2 ⟨rfl, rfl⟩⟩

theorem numVal_eq (x : List Nat) :
    numVal x =
      if x.all (fun b => b < 128) then PyVal.s x
      else if x.length = 4 then PyVal.i (toBE x)
      else PyVal.s (hexOfBytes x) := by
  by_cases h : x.all (fun b => b < 128)
  · simp [numVal, asciiDecode, h]
  · simp [numVal, asciiDecode, h]

/-- Claim C2 (corrected, counterexample): a 0x7FFE field header claiming 5
payload bytes with only 2 remaining does not make the decoder return only
the previously completed fields — the truncated payload "ab" is decoded
and returned as a field, so the result is not the empty field list the
claim requires. -/
theorem truncated_field_counterexample :
    decode_packet truncatedFieldBuf = .ok (0x4242, [(0x7FFE, PyVal.s [97, 98])]) ∧
      [((0x7FFE : Nat), PyVal.s [97, 98])] ≠ ([] : List (Nat × PyVal)) :=
  ⟨rfl, by decide⟩

/-- Claim C2 (amended): when a field header claims a payload length larger
than the bytes remaining after it, the decoder never loops and never
raises from the length check itself, but the outcome depends on the
branch: (i) in the generic-tag branch the field is skipped — nothing is
appended and parsing resumes right after the 4-byte header; (ii) in the
0x7FF0/0x7FFE branch with a nonzero compact length the decoder appends the
field with its payload silently truncated to the remaining bytes and then
stops; (iii) in the 0x7FF0/0x7FFE branch with compact length zero and
fewer than 4 bytes left for the extended length, the unguarded `unpack`
raises `struct.error`. -/
theorem overlong_length_behavior :
    (∀ (rem : List Nat) (fuel : Nat),
        4 ≤ rem.length →
        ¬ (toBE (rem.take 4) / 65536 = 0x7FFE ∨ toBE (rem.take 4) / 65536 = 0x7FF0) →
        toBE (rem.take 4) / 65536 ≠ 0x7FFF →
        ¬ (toBE (rem.take 4) / 65536 = 0 ∧ toBE (rem.take 4) % 65536 = 0) →
        rem.length - 4 < toBE (rem.take 4) % 65536 →
        parseFields (fuel + 1) rem = parseFields fuel (rem.drop 4)) ∧
      (∀ (rem : List Nat) (fuel : Nat),
        4 ≤ rem.length →
        (toBE (rem.take 4) / 65536 = 0x7FFE ∨ toBE (rem.take 4) / 65536 = 0x7FF0) →
        toBE (rem.take 4) % 65536 ≠ 0 →
        rem.length - 4 < toBE (rem.take 4) % 65536 →
        parseFields (fuel + 1) rem =
          .ok [(toBE (rem.take 4) / 65536, numVal (rem.drop 4))]) ∧
      (∀ (rem : List Nat) (fuel : Nat),
        4 ≤ rem.length →
        (toBE (rem.take 4) / 65536 = 0x7FFE ∨ toBE (rem.take 4) / 65536 = 0x7FF0) →
        toBE (rem.take 4) % 65536 = 0 →
        rem.length < 8 →
        parseFields (fuel + 1) rem = .error .structError) := by
  refine ⟨?_, ?_, ?_⟩
  · intro rem fuel h4 hn1 hn2 hn3 hov
    refine pf_generic_skip fuel rem (by omega) hn1 hn2 hn3 ?_
    rintro ⟨-, hle⟩
    rw [List.length_drop] at hle
    omega
  · intro rem fuel h4 hft hfl hov
    rw [pf_numeric_compact fuel rem (by omega) hft hfl]
    have hd : (rem.drop 4).length = rem.length - 4 := List.length_drop 4 rem
    have e1 : (rem.drop 4).take (toBE (rem.take 4) % 65536) = rem.drop 4 :=
      List.take_of_length_le (by omega)
    have e2 : (rem.drop 4).drop (toBE (rem.take 4) % 65536) = [] :=
      List.drop_of_length_le (by omega)
    rw [e1, e2, parseFields_nil]
    rfl
  · intro rem fuel h4 hft hfl h8
    refine pf_numeric_ext_err fuel rem (by omega) hft hfl ?_
    unfold unpack32
    rw [if_neg]
    simp only [List.length_take, List.length_drop]
    omega

theorem overlong_length_behavior_witness :
    parseFields 2 [0, 1, 0, 5, 9] = parseFields 1 [9] ∧
      parseFields 2 [127, 254, 0, 5, 97, 98] = .ok [(0x7FFE, numVal [97, 98])] ∧
      parseFields 1 [127, 240, 0, 0, 1] = .error .structError :=
  ⟨overlong_length_behavior.1 [0, 1, 0, 5, 9] 1 (by decide) (by decide) (by decide)
      (by decide) (by decide),
    overlong_length_behavior.2.1 [127, 254, 0, 5, 97, 98] 1 (by decide) (by decide)
      (by decide) (by decide),
    overlong_length_behavior.2.2 [127, 240, 0, 0, 1] 0 (by decide) (by decide)
      (by decide) (by decide)⟩

/-- Claim C6 (confirmed): for a 0x7FF0/0x7FFE field whose payload is fully
contained in the buffer, the decoder takes the payload length from the low
16 header bits, or — when those are zero — from the following 4 bytes as an
extended big-endian length; it first attempts an ASCII decode of the
payload, falls back to the 4-byte big-endian unsigned integer when the
payload is exactly 4 bytes, and otherwise to the hex dump of the payload. -/
theorem numeric_field_decode (rem : List Nat) (fuel st ln : Nat)
    (h4 : 4 ≤ rem.length)
    (hft : toBE (rem.take 4) / 65536 = 0x7FFE ∨ toBE (rem.take 4) / 65536 = 0x7FF0)
    (hst : st = if toBE (rem.take 4) % 65536 = 0 then 8 else 4)
    (hln : ln = if toBE (rem.take 4) % 65536 = 0 then toBE ((rem.drop 4).take 4)
                else toBE (rem.take 4) % 65536)
    (hfit : st + ln ≤ rem.length) :
    parseFields (fuel + 1) rem =
      (parseFields fuel ((rem.drop st).drop ln)).map
        (fun rest =>
          (toBE (rem.take 4) / 65536,
            if ((rem.drop st).take ln).all (fun b => b < 128) then
              PyVal.s ((rem.drop st).take ln)
            else if ((rem.drop st).take ln).length = 4 then
              PyVal.i (toBE ((rem.drop st).take ln))
            else PyVal.s (hexOfBytes ((rem.drop st).take ln))) :: rest) := by
  by_cases hfl : toBE (rem.take 4) % 65536 = 0
  · have hst8 : st = 8 := by rw [hst, if_pos hfl]
    have hlnv : ln = toBE ((rem.drop 4).take 4) := by rw [hln, if_pos hfl]
    subst hst8
    have hu : unpack32 ((rem.drop 4).take 4) = some (toBE ((rem.drop 4).take 4)) := by
      unfold unpack32
      rw [if_pos]
      simp only [List.length_take, List.length_drop]
      omega
    rw [pf_numeric_ext fuel rem (toBE ((rem.drop 4).take 4)) (by omega) hft hfl hu]
    have e1 : (rem.drop 4).drop 4 = rem.drop 8 := by rw [List.drop_drop]
    rw [hlnv]
    simp only [e1, numVal_eq]
  · have hst4 : st = 4 := by rw [hst, if_neg hfl]
    have hlnv : ln = toBE (rem.take 4) % 65536 := by rw [hln, if_neg hfl]
    subst hst4
    rw [pf_numeric_compact fuel rem (by omega) hft hfl, hlnv]
    simp only [numVal_eq]

theorem numeric_field_decode_witness :
    parseFields 2 [127, 240, 0, 3, 200, 1, 2, 9, 9] =
      .ok [(0x7FF0, PyVal.s [99, 56, 48, 49, 48, 50])] :=
  numeric_field_decode [127, 240, 0, 3, 200, 1, 2, 9, 9] 1 4 3 (by decide) (by decide)
    (by decide) (by decide) (by decide)

/-- Claim C5 (confirmed): whenever `build_message` succeeds, the first 4
output bytes, read big-endian, equal the output length minus 4, which is
the 2 bytes of the message type plus the total encoded length of the
fields. -/
theorem length_prefix_correct (t : Nat) (F : List EncField) (out fb : List Nat)
    (hb : build_message t F = some out) (hf : encodeFields F = some fb) :
    toBE (out.take 4) = out.length - 4 ∧ out.length - 4 = 2 + fb.length := by
  unfold build_message at hb
  split at hb
  · rename_i mt fb' hmt hfb
    split at hb
    · rename_i lp hlp
      obtain ⟨hlt, rfl⟩ := pack32_inv hlp
      obtain ⟨ht16, rfl⟩ := pack16_inv hmt
      have hfb' : fb' = fb := by
        rw [hf] at hfb
        exact (Option.some.inj hfb).symm
      rw [hfb'] at hb hlt
      obtain rfl := Option.some.inj hb
      constructor
      · have e1 : ((pack32core (pack16core t ++ fb).length ++ (pack16core t ++ fb)).take 4)
            = pack32core (pack16core t ++ fb).length := rfl
        rw [e1, toBE_pack32core _ hlt]
        simp only [List.length_append, pack32core, pack16core, List.length_cons,
          List.length_nil]
        omega
      · simp only [List.length_append, pack32core, pack16core, List.length_cons,
          List.length_nil]
        omega
    · simp at hb
  · simp at hb

theorem length_prefix_correct_witness :
    toBE (([0, 0, 0, 10, 66, 66, 0, 0, 0, 4, 112, 105, 110, 103] : List Nat).take 4) =
        ([0, 0, 0, 10, 66, 66, 0, 0, 0, 4, 112, 105, 110, 103] : List Nat).length - 4 ∧
      ([0, 0, 0, 10, 66, 66, 0, 0, 0, 4, 112, 105, 110, 103] : List Nat).length - 4 =
        2 + ([0, 0, 0, 4, 112, 105, 110, 103] : List Nat).length :=
  length_prefix_correct 0x4242 [.bare [112, 105, 110, 103]]
    [0, 0, 0, 10, 66, 66, 0, 0, 0, 4, 112, 105, 110, 103]
    [0, 0, 0, 4, 112, 105, 110, 103] rfl rfl

theorem toBE_pack16core_pair (a b : Nat) (ha : a < 65536) (hb : b < 65536) :
    toBE (pack16core a ++ pack16core b) = a * 65536 + b := by
  simp only [pack16core, toBE, List.cons_append, List.nil_append, List.foldl]
  omega

/-- Parsing one encoded 0x7FFF string field consumes exactly its bytes. -/
theorem parse_7fff_str (s rest : List Nat) (fuel : Nat)
    (hall : s.all (fun c => c < 128) = true) (hlt : s.length < 4294967296) :
    parseFields (fuel + 1) ((pack32core (0x7FFF * 65536) ++ pack32core s.length ++ s) ++ rest) =
      (parseFields fuel rest).map (fun fs => ((0x7FFF : Nat), PyVal.s s) :: fs) := by
  have ht4 : ((pack32core (0x7FFF * 65536) ++ pack32core s.length ++ s) ++ rest).take 4
      = [127, 255, 0, 0] := rfl
  have hdd : (((pack32core (0x7FFF * 65536) ++ pack32core s.length ++ s) ++ rest).drop 4).drop 4
      = s ++ rest := rfl
  have h4 : ¬ ((pack32core (0x7FFF * 65536) ++ pack32core s.length ++ s) ++ rest).length < 4 := by
    simp [pack32core, List.length_append]
  have hft : toBE (((pack32core (0x7FFF * 65536) ++ pack32core s.length ++ s) ++ rest).take 4)
      / 65536 = 0x7FFF := by
    rw [ht4]
    rfl
  have hd4 : (((pack32core (0x7FFF * 65536) ++ pack32core s.length ++ s) ++ rest).drop 4).take 4
      = pack32core s.length := rfl
  have hu : unpack32 ((((pack32core (0x7FFF * 65536) ++ pack32core s.length ++ s) ++ rest).drop 4).take 4)
      = some s.length := by
    rw [hd4]
    unfold unpack32
    have hlen4 : (pack32core s.length).length = 4 := rfl
    rw [if_pos hlen4, toBE_pack32core _ hlt]
  have ha : asciiDecode (((((pack32core (0x7FFF * 65536) ++ pack32core s.length ++ s) ++ rest).drop 4).drop 4).take s.length)
      = some s := by
    rw [hdd, List.take_left]
    unfold asciiDecode
    rw [if_pos hall]
  rw [pf_string fuel _ s.length s h4 hft hu ha]
  simp only [hdd, List.drop_left, hft]

/-- Parsing one encoded 0x7FF0/0x7FFE field (zero compact length, 4-byte
extended length, then the payload) consumes exactly its bytes. -/
theorem parse_special_payload (T : Nat) (hT : T = 0x7FFE ∨ T = 0x7FF0)
    (P rest : List Nat) (fuel : Nat) (hlt : P.length < 4294967296) :
    parseFields (fuel + 1) ((pack32core (T * 65536) ++ pack32core P.length ++ P) ++ rest) =
      (parseFields fuel rest).map (fun fs => (T, numVal P) :: fs) := by
  rcases hT with rfl | rfl
  · have ht4 : ((pack32core (0x7FFE * 65536) ++ pack32core P.length ++ P) ++ rest).take 4
        = [127, 254, 0, 0] := rfl
    have hdd : (((pack32core (0x7FFE * 65536) ++ pack32core P.length ++ P) ++ rest).drop 4).drop 4
        = P ++ rest := rfl
    have h4 : ¬ ((pack32core (0x7FFE * 65536) ++ pack32core P.length ++ P) ++ rest).length < 4 := by
      simp [pack32core, List.length_append]
    have hft : toBE (((pack32core (0x7FFE * 65536) ++ pack32core P.length ++ P) ++ rest).take 4)
        / 65536 = 0x7FFE := by
      rw [ht4]
      rfl
    have hfl : toBE (((pack32core (0x7FFE * 65536) ++ pack32core P.length ++ P) ++ rest).take 4)
        % 65536 = 0 := by
      rw [ht4]
      rfl
    have hd4 : (((pack32core (0x7FFE * 65536) ++ pack32core P.length ++ P) ++ rest).drop 4).take 4
        = pack32core P.length := rfl
    have hu : unpack32 ((((pack32core (0x7FFE * 65536) ++ pack32core P.length ++ P) ++ rest).drop 4).take 4)
        = some P.length := by
      rw [hd4]
      unfold unpack32
      have hlen4 : (pack32core P.length).length = 4 := rfl
      rw [if_pos hlen4, toBE_pack32core _ hlt]
    rw [pf_numeric_ext fuel _ P.length h4 (Or.inl hft) hfl hu]
    simp only [hdd, List.take_left, List.drop_left, hft]
  · have ht4 : ((pack32core (0x7FF0 * 65536) ++ pack32core P.length ++ P) ++ rest).take 4
        = [127, 240, 0, 0] := rfl
    have hdd : (((pack32core (0x7FF0 * 65536) ++ pack32core P.length ++ P) ++ rest).drop 4).drop 4
        = P ++ rest := rfl
    have h4 : ¬ ((pack32core (0x7FF0 * 65536) ++ pack32core P.length ++ P) ++ rest).length < 4 := by
      simp [pack32core, List.length_append]
    have hft : toBE (((pack32core (0x7FF0 * 65536) ++ pack32core P.length ++ P) ++ rest).take 4)
        / 65536 = 0x7FF0 := by
      rw [ht4]
      rfl
    have hfl : toBE (((pack32core (0x7FF0 * 65536) ++ pack32core P.length ++ P) ++ rest).take 4)
        % 65536 = 0 := by
      rw [ht4]
      rfl
    have hd4 : (((pack32core (0x7FF0 * 65536) ++ pack32core P.length ++ P) ++ rest).drop 4).take 4
        = pack32core P.length := rfl
    have hu : unpack32 ((((pack32core (0x7FF0 * 65536) ++ pack32core P.length ++ P) ++ rest).drop 4).take 4)
        = some P.length := by
      rw [hd4]
      unfold unpack32
      have hlen4 : (pack32core P.length).length = 4 := rfl
      rw [if_pos hlen4, toBE_pack32core _ hlt]
    rw [pf_numeric_ext fuel _ P.length h4 (Or.inr hft) hfl hu]
    simp only [hdd, List.take_left, List.drop_left, hft]

/-- Parsing one encoded generic tagged field (2-byte tag, 2-byte length,
nonempty payload) consumes exactly its bytes. -/
theorem parse_generic (T : Nat) (P rest : List Nat) (fuel : Nat)
    (hT : T < 65536)
    (hn1 : ¬ (T = 0x7FFE ∨ T = 0x7FF0)) (hn2 : T ≠ 0x7FFF)
    (hPne : P ≠ []) (hPlt : P.length < 65536) :
    parseFields (fuel + 1) ((pack16core T ++ pack16core P.length ++ P) ++ rest) =
      (parseFields fuel rest).map (fun fs => (T, PyVal.s (hexOfBytes P)) :: fs) := by
  have hL0 : 0 < P.length := List.length_pos.mpr hPne
  have ht4 : ((pack16core T ++ pack16core P.length ++ P) ++ rest).take 4
      = pack16core T ++ pack16core P.length := by
    cases P with
    | nil => exact absurd rfl hPne
    | cons p0 ps => rfl
  have hdrop : ((pack16core T ++ pack16core P.length ++ P) ++ rest).drop 4 = P ++ rest := by
    cases P with
    | nil => exact absurd rfl hPne
    | cons p0 ps => rfl
  have hdr : toBE (((pack16core T ++ pack16core P.length ++ P) ++ rest).take 4)
      = T * 65536 + P.length := by
    rw [ht4, toBE_pack16core_pair T P.length hT hPlt]
  have hft : toBE (((pack16core T ++ pack16core P.length ++ P) ++ rest).take 4) / 65536 = T := by
    rw [hdr]
    omega
  have hfl : toBE (((pack16core T ++ pack16core P.length ++ P) ++ rest).take 4) % 65536
      = P.length := by
    rw [hdr]
    omega
  have h4 : ¬ ((pack16core T ++ pack16core P.length ++ P) ++ rest).length < 4 := by
    simp [pack16core, List.length_append]
  rw [pf_generic_hit fuel _ h4
    (by rw [hft]; exact hn1)
    (by rw [hft]; exact hn2)
    (by rw [hft, hfl]; rintro ⟨-, h0⟩; omega)
    (by rw [hfl, hdrop]; exact ⟨hL0, by simp [List.length_append]⟩)]
  simp only [hfl, hdrop, List.take_left, List.drop_left, hft]

/-- One good field's encoding is parsed back as exactly `decodedField f`,
whatever follows it; and the encoding is nonempty. -/
theorem parse_one_good (f : EncField) (bf : List Nat)
    (hg : goodField f = true) (he : encodeField f = some bf) :
    (∀ (rest : List Nat) (fuel : Nat),
        parseFields (fuel + 1) (bf ++ rest) =
          (parseFields fuel rest).map (fun fs => decodedField f :: fs)) ∧
      1 ≤ bf.length := by
  cases f with
  | bare s => simp [goodField] at hg
  | tagged t v =>
    by_cases h1 : t = 0x7FFF
    · subst h1
      cases v with
      | str s =>
        have he' : (match pack32 (0x7FFF * 65536), pack32 s.length, encodeAscii s with
            | some h, some l, some e => some (h ++ l ++ e)
            | _, _, _ => none) = some bf := he
        split at he'
        · rename_i h' l' e' hh hl hae
          obtain rfl := Option.some.inj he'
          obtain ⟨hlt1, rfl⟩ := pack32_inv hh
          obtain ⟨hlt2, rfl⟩ := pack32_inv hl
          obtain ⟨hall, hes⟩ := encodeAscii_inv hae
          refine ⟨fun rest fuel => ?_, by simp [pack32core, List.length_append]⟩
          rw [hes, parse_7fff_str s rest fuel hall hlt2]
          simp [decodedField]
        · simp at he'
      | int n => simp [goodField] at hg
      | bytes b => simp [goodField] at hg
    · by_cases h2 : t = 0x7FF0 ∨ t = 0x7FFE
      · simp only [encodeField] at he
        rw [if_neg h1, if_pos h2] at he
        cases v with
        | str s =>
          have he' : (match pack32 (t * 65536), pack32 s.length, encodeAscii s with
              | some h, some l, some e => some (h ++ l ++ e)
              | _, _, _ => none) = some bf := he
          split at he'
          · rename_i h' l' e' hh hl hae
            obtain rfl := Option.some.inj he'
            obtain ⟨hlt1, rfl⟩ := pack32_inv hh
            obtain ⟨hlt2, rfl⟩ := pack32_inv hl
            obtain ⟨hall, hes⟩ := encodeAscii_inv hae
            refine ⟨fun rest fuel => ?_, by simp [pack32core, List.length_append]⟩
            rw [hes, parse_special_payload t h2.symm s rest fuel hlt2]
            simp only [decodedField, payloadBytes, if_neg h1, if_pos h2]
          · simp at he'
        | int n =>
          have he' : (match pack32 (t * 65536), pack32 4, pack32 n with
              | some h, some l, some e => some (h ++ l ++ e)
              | _, _, _ => none) = some bf := he
          split at he'
          · rename_i h' l' e' hh hl hn
            obtain rfl := Option.some.inj he'
            obtain ⟨hlt1, rfl⟩ := pack32_inv hh
            obtain ⟨hlt2, rfl⟩ := pack32_inv hl
            obtain ⟨hlt3, rfl⟩ := pack32_inv hn
            refine ⟨fun rest fuel => ?_, by simp [pack32core, List.length_append]⟩
            have e4 : pack32core 4 = pack32core (pack32core n).length := rfl
            rw [e4, parse_special_payload t h2.symm (pack32core n) rest fuel
              (by norm_num [pack32core])]
            simp only [decodedField, payloadBytes, if_neg h1, if_pos h2]
          · simp at he'
        | bytes b =>
          have he' : (match pack32 (t * 65536), pack32 b.length with
              | some h, some l => some (h ++ l ++ b)
              | _, _ => none) = some bf := he
          split at he'
          · rename_i h' l' hh hl
            obtain rfl := Option.some.inj he'
            obtain ⟨hlt1, rfl⟩ := pack32_inv hh
            obtain ⟨hlt2, rfl⟩ := pack32_inv hl
            refine ⟨fun rest fuel => ?_, by simp [pack32core, List.length_append]⟩
            rw [parse_special_payload t h2.symm b rest fuel hlt2]
            simp only [decodedField, payloadBytes, if_neg h1, if_pos h2]
          · simp at he'
      · by_cases h3 : t = 0x2710
        · simp [goodField, h1, h2, h3] at hg
        · simp only [encodeField] at he
          rw [if_neg h1, if_neg h2, if_neg h3] at he
          cases v with
          | str s =>
            have he' : (match pack16 t, encodeAscii s with
                | some h, some e =>
                  match pack16 e.length with
                  | some l => some (h ++ l ++ e)
                  | none => none
                | _, _ => none) = some bf := he
            split at he'
            · rename_i h' e' hh hae
              split at he'
              · rename_i l' hl
                obtain rfl := Option.some.inj he'
                obtain ⟨ht16, rfl⟩ := pack16_inv hh
                obtain ⟨hall, hes⟩ := encodeAscii_inv hae
                obtain ⟨hlt2, rfl⟩ := pack16_inv hl
                have hne : s ≠ [] := by
                  simp [goodField, h1, h2, h3] at hg
                  simpa [List.isEmpty_iff] using hg
                refine ⟨fun rest fuel => ?_, by simp [pack16core, List.length_append]⟩
                rw [hes] at hlt2
                rw [hes, parse_generic t s rest fuel ht16 (fun h => h2 h.symm) h1 hne hlt2]
                simp only [decodedField, payloadBytes, if_neg h1, if_neg h2]
              · simp at he'
            · simp at he'
          | int n =>
            simp [goodField, h1, h2, h3] at hg
          | bytes b =>
            have he' : (match pack16 t, pack16 b.length with
                | some h, some l => some (h ++ l ++ b)
                | _, _ => none) = some bf := he
            split at he'
            · rename_i h' l' hh hl
              obtain rfl := Option.some.inj he'
              obtain ⟨ht16, rfl⟩ := pack16_inv hh
              obtain ⟨hlt2, rfl⟩ := pack16_inv hl
              have hne : b ≠ [] := by
                simp [goodField, h1, h2, h3] at hg
                simpa [List.isEmpty_iff] using hg
              refine ⟨fun rest fuel => ?_, by simp [pack16core, List.length_append]⟩
              rw [parse_generic t b rest fuel ht16 (fun h => h2 h.symm) h1 hne hlt2]
              simp only [decodedField, payloadBytes, if_neg h1, if_neg h2]
            · simp at he'

/-- The concatenated encoding of a list of good fields parses back to the
list of their decoded forms (for any sufficient fuel), and is at least as
long as the field list. -/
theorem parse_enc (F : List EncField) : ∀ (fuel : Nat) (eb : List Nat),
    F.all goodField = true → encodeFields F = some eb → eb.length ≤ fuel →
    parseFields fuel eb = .ok (F.map decodedField) ∧ F.length ≤ eb.length := by
  induction F with
  | nil =>
    intro fuel eb hg he hf
    obtain rfl : ([] : List Nat) = eb := Option.some.inj he
    exact ⟨parseFields_nil fuel, by simp⟩
  | cons f fs ih =>
    intro fuel eb hg he hf
    have hg' : goodField f = true ∧ fs.all goodField = true := by simpa using hg
    have he' : (match encodeField f, encodeFields fs with
        | some b, some r => some (b ++ r)
        | _, _ => none) = some eb := he
    split at he'
    · rename_i bf ebs hbf hebs
      obtain rfl := Option.some.inj he'
      obtain ⟨hstep, hpos⟩ := parse_one_good f bf hg'.1 hbf
      have hlen : (bf ++ ebs).length = bf.length + ebs.length := List.length_append _ _
      obtain ⟨fuel', rfl⟩ : ∃ k, fuel = k + 1 := ⟨fuel - 1, by omega⟩
      have ihr := ih fuel' ebs hg'.2 hebs (by omega)
      constructor
      · rw [hstep ebs fuel', ihr.1]
        rfl
      · have := ihr.2
        simp only [List.length_cons, List.length_append]
        omega
    · simp at he'

/-- Claim C1 (corrected, counterexample): the round-trip property fails as
stated: encoding the single supported field `(0x2710, "ab")` and decoding
the result yields the field `(0x0000, "6162")` — the 0x2710 tag is not
reproduced (the encoder writes the bare tag as 4 bytes while the decoder
splits headers 2+2), so the decoded pairs do not match the input pairs
under any value-representation reading. -/
theorem roundtrip_claim_counterexample :
    build_message 0x4242 [.tagged 0x2710 (.str [97, 98])] =
        some [0, 0, 0, 12, 66, 66, 0, 0, 39, 16, 0, 0, 0, 2, 97, 98] ∧
      decode_packet [0, 0, 0, 12, 66, 66, 0, 0, 39, 16, 0, 0, 0, 2, 97, 98] =
        .ok (0x4242, [(0, PyVal.s [54, 49, 54, 50])]) ∧
      [((0 : Nat), PyVal.s [54, 49, 54, 50])].map Prod.fst ≠ [0x2710] :=
  ⟨rfl, rfl, by decide⟩

/-- Claim C1 (amended): decoding the encoding reproduces the field
sequence for 0x7FFF string fields, 0x7FF0/0x7FFE fields of any value
shape, and generic tagged fields with nonempty payloads — tags exactly,
values up to the wire format's representation ambiguity as captured by
`decodedField` (ASCII strings come back verbatim; int/bytes payloads come
back as the ASCII, 4-byte-integer or hex reading of their bytes; generic
payloads come back as hex dumps).  0x2710 fields and bare strings are
excluded: they do not round-trip (see the counterexample). -/
theorem roundtrip_good_fields (t : Nat) (F : List EncField) (out : List Nat)
    (hg : F.all goodField = true) (hb : build_message t F = some out) :
    decode_packet out = .ok (t, F.map decodedField) := by
  unfold build_message at hb
  split at hb
  · rename_i mt fb hmt hfb
    split at hb
    · rename_i lp hlp
      obtain ⟨hlt, rfl⟩ := pack32_inv hlp
      obtain ⟨ht16, rfl⟩ := pack16_inv hmt
      obtain rfl := Option.some.inj hb
      have h4 : ¬ (pack32core (pack16core t ++ fb).length ++ (pack16core t ++ fb)).length < 4 := by
        simp [pack32core, pack16core, List.length_append]
      rw [decode_headers_ok h4]
      have h2 : ((pack32core (pack16core t ++ fb).length ++ (pack16core t ++ fb)).drop 4).take 2
          = pack16core t := rfl
      have hu16 : unpack16 (((pack32core (pack16core t ++ fb).length ++
          (pack16core t ++ fb)).drop 4).take 2) = some t := by
        rw [h2]
        unfold unpack16
        have hl2 : (pack16core t).length = 2 := rfl
        rw [if_pos hl2, toBE_pack16core t ht16]
      rw [hu16]
      have hd6 : (pack32core (pack16core t ++ fb).length ++ (pack16core t ++ fb)).drop 6 = fb :=
        rfl
      have hp := parse_enc F
        (pack32core (pack16core t ++ fb).length ++ (pack16core t ++ fb)).length fb hg hfb
        (by simp only [pack32core, pack16core, List.length_append, List.length_cons,
          List.length_nil]; omega)
      simp only [hd6, hp.1, Except.map]
    · simp at hb
  · simp at hb

theorem roundtrip_good_fields_witness :
    decode_packet [0, 0, 0, 14, 66, 66, 127, 240, 0, 0, 0, 0, 0, 4, 0, 0, 0, 5] =
      .ok (0x4242, [EncField.tagged 0x7FF0 (.int 5)].map decodedField) :=
  roundtrip_good_fields 0x4242 [.tagged 0x7FF0 (.int 5)]
    [0, 0, 0, 14, 66, 66, 127, 240, 0, 0, 0, 0, 0, 4, 0, 0, 0, 5] rfl rfl
